import Mathlib

set_option autoImplicit false

/-!
Verification of the Express ERP MCP server against its design spec.

The TypeScript sources are shallowly embedded: each mutable structure is
modelled by the pure state it denotes, each method by a pure function on
that state.  Comments at every definition name the source file and lines
it embeds.
-/

namespace Erp

/- ====================================================================
   Event Log — src/helpers/eventStore.ts (InMemoryEventStore)
   ==================================================================== -/

/-- One stored event, `interface StoredEvent { id: string; data: string }`
(eventStore.ts lines 6-9). -/
structure StoredEvent where
  id : String
  data : String
deriving DecidableEq, Repr

/-- The `events: Map<string, StoredEvent[]>` field, modelled by its lookup
function with the default `[]` that every reader applies
(`this.events.get(sessionId) || []`, and `storeEvent` initialises a missing
key to `[]` before pushing).  An unknown key and a key mapped to `[]` are
observationally identical in the source. -/
def EventStore : Type := String → List StoredEvent

def emptyStore : EventStore := fun _ => []

/-- `maxEventsPerSession = 100` (eventStore.ts line 13). -/
def maxEventsPerSession : Nat := 100

/-- Body of `storeEvent` on one session's array (eventStore.ts lines 23-29):
`push` the event, then `shift()` (drop the oldest) if the length exceeds
the cap. -/
def pushEvent (es : List StoredEvent) (e : StoredEvent) : List StoredEvent :=
  let pushed := es ++ [e]
  if maxEventsPerSession < pushed.length then pushed.tail else pushed

/-- `storeEvent(sessionId, eventId, data)` (eventStore.ts lines 18-30). -/
def storeEvent (st : EventStore) (sessionId eventId data : String) : EventStore :=
  fun s => if s = sessionId then pushEvent (st sessionId) ⟨eventId, data⟩ else st s

/-- `getEventsSince(sessionId, lastEventId?)` (eventStore.ts lines 35-52).
`if (!lastEventId)` is JS falsiness: an absent *or empty-string* id returns
the whole window; otherwise `findIndex` locates the id (`-1` ↦ `none`) and
`slice(lastIndex + 1)` is `drop (i + 1)`. -/
def getEventsSince (st : EventStore) (sessionId : String) (lastEventId : Option String) :
    List StoredEvent :=
  let sessionEvents := st sessionId
  match lastEventId with
  | none => sessionEvents
  | some lid =>
    if lid = "" then sessionEvents
    else
      match sessionEvents.findIdx? (fun e => e.id == lid) with
      | none => sessionEvents
      | some i => sessionEvents.drop (i + 1)

/-- `clearSession(sessionId)` (eventStore.ts lines 57-59): the key is deleted,
so its lookup falls back to `[]`. -/
def clearSession (st : EventStore) (sessionId : String) : EventStore :=
  fun s => if s = sessionId then [] else st s

/-- `replayEventsAfter(sessionId, lastEventId)` (eventStore.ts lines 73-87):
it calls `getEventsSince` and wraps the resulting array in an async
generator that yields exactly its elements in order, so it denotes the
same sequence. -/
def replayEventsAfter (st : EventStore) (sessionId : String) (lastEventId : Option String) :
    List StoredEvent :=
  getEventsSince st sessionId lastEventId

/-- One `storeEvent` call: (sessionId, eventId, data). -/
abbrev StoreOp := String × String × String

/-- Run a sequence of `storeEvent` calls against the empty store. -/
def runStore (ops : List StoreOp) : EventStore :=
  ops.foldl (fun st o => storeEvent st o.1 o.2.1 o.2.2) emptyStore

/-- All events ever appended for one session, in append order. -/
def appendsOf (sessionId : String) (ops : List StoreOp) : List StoredEvent :=
  (ops.filter (fun o => o.1 == sessionId)).map (fun o => ⟨o.2.1, o.2.2⟩)

/- ====================================================================
   Stateful-HTTP session endpoints — src/index-streamable.ts
   ==================================================================== -/

/-- JS truthiness of the optional `mcp-session-id` header value
(`req.headers['mcp-session-id'] as string | undefined`): an absent header
is `undefined` and an empty value is `""`, both falsy, so neither carries
a session identifier. -/
def headerTruthy : Option String → Bool
  | none => false
  | some s => !(s == "")

/-- Outcome of `app.post('/mcp')` (index-streamable.ts lines 287-358).
`reuse` is the branch that hands the request to the existing transport for
that session; `newSession` is the branch that builds a fresh transport and
MCP server, connects them and handles the initialize request; `badRequest`
is the early `res.status(400).json({... code: -32000 ...})` return that
touches no transport and invokes no tool handler. -/
inductive PostOutcome where
  | reuse (sessionId : String)
  | newSession
  | badRequest (httpStatus : Nat) (jsonRpcCode : Int)
deriving DecidableEq, Repr

/-- The transports registry is `Map<string, StreamableHTTPServerTransport>`;
only its key set matters here. -/
abbrev Transports := List String

/-- `app.post('/mcp')` branch structure (index-streamable.ts lines 287-339):
`if (sessionId && transports.has(sessionId)) → reuse`,
`else if (!sessionId && isInitializeRequest(req.body)) → new session`,
`else → 400 / -32000`. -/
def postMcp (transports : Transports) (sessionId : Option String) (isInit : Bool) :
    PostOutcome :=
  match sessionId with
  | some s =>
    if s = "" then (if isInit then .newSession else .badRequest 400 (-32000))
    else if transports.contains s then .reuse s
    else .badRequest 400 (-32000)
  | none => if isInit then .newSession else .badRequest 400 (-32000)

/-- Registry after one POST: only the `newSession` branch registers a
transport (`onsessioninitialized` callback, index-streamable.ts lines
308-311, keyed by the freshly generated `randomUUID()`). -/
def postMcpTransports (transports : Transports) (sessionId : Option String) (isInit : Bool)
    (freshId : String) : Transports :=
  match postMcp transports sessionId isInit with
  | .newSession => transports ++ [freshId]
  | _ => transports

/-- Outcome of `app.delete('/mcp')` (index-streamable.ts lines 385-405). -/
inductive DeleteOutcome where
  | terminated
  | badRequest400
deriving DecidableEq, Repr

/-- `app.delete('/mcp')`: `if (!sessionId || !transports.has(sessionId))`
→ HTTP 400 with the registry untouched (index-streamable.ts lines 388-390).
Otherwise the request is delegated to the session's transport.
Modelled from the spec: the delegated DELETE handling lives in the MCP SDK's
`StreamableHTTPServerTransport` (not under src/); per the spec, "an explicit
termination request with a known session identifier triggers
`handleTermination` and responds success", closing the transport, which
fires the in-repo `transport.onclose` handler (index-streamable.ts lines
315-321) that removes the session's key from the registry
(`transports.delete(sid)`, modelled as dropping the key). -/
def deleteMcp (transports : Transports) (sessionId : Option String) :
    DeleteOutcome × Transports :=
  match sessionId with
  | none => (.badRequest400, transports)
  | some s =>
    if s = "" then (.badRequest400, transports)
    else if transports.contains s then (.terminated, transports.filter (fun t => !(t == s)))
    else (.badRequest400, transports)

/- ====================================================================
   JS string primitives shared by the embeddings
   ==================================================================== -/

/-- The whitespace characters recognised both by JS `trim()` and by the
`\s` regex class (the ASCII ones; exotic Unicode spaces are immaterial to
the claims). -/
def jsWhitespace (c : Char) : Bool :=
  c == ' ' || c == '\t' || c == '\n' || c == '\r' || c == '\x0b' || c == '\x0c'

/-- JS `String.prototype.trim` on the character list: strip leading and
trailing whitespace. -/
def trimChars (l : List Char) : List Char :=
  (((l.dropWhile jsWhitespace).reverse).dropWhile jsWhitespace).reverse

/-- JS `String.prototype.trim` on strings. -/
def jsTrimStr (s : String) : String := String.mk (trimChars s.toList)

/- ====================================================================
   ApiError — src/types/index.ts
   ==================================================================== -/

/-- `class ApiError extends Error { message, statusCode?: number }`
(types/index.ts).  The `details` payload is irrelevant to the claims. -/
structure ApiErr where
  message : String
  statusCode : Option Nat
deriving DecidableEq, Repr

/- ====================================================================
   verify_order argument validation — src/tools/orderVerification.ts
   (handleVerifyOrder) and src/services/apiClient.ts (ApiClient.verifyOrder)
   ==================================================================== -/

/-- Shape of the `args: unknown` value reaching `handleVerifyOrder`:
no object at all, an object missing `numer_zamowienia` (so the value is
`undefined`), a non-string value, or a string. -/
inductive VerifyArgs where
  | noArgs
  | missingField
  | nonString
  | str (s : String)
deriving DecidableEq, Repr

/-- A failure raised before any outbound HTTP request:
either a plain `Error` thrown by the handler's own argument validation
(orderVerification.ts lines 65-73) or an `ApiError` thrown by
`ApiClient.verifyOrder`'s validation (apiClient.ts lines 23-29). -/
inductive VerifyFailure where
  | invalidToolArgs (message : String)
  | api (e : ApiErr)
deriving DecidableEq, Repr

def VerifyFailure.message : VerifyFailure → String
  | .invalidToolArgs m => m
  | .api e => e.message

/-- `ApiClient.verifyOrder` validation (apiClient.ts lines 21-33):
`!s || s.trim().length === 0` rejects empty input ("" being falsy is
subsumed by its trim being empty), `s.length > 50` rejects over-long input;
otherwise the request body `{ numer_zamowienia: s.trim() }` goes out. -/
def verifyOrderValidate (numerZamowienia : String) : Except VerifyFailure String :=
  if (jsTrimStr numerZamowienia).length = 0 then
    .error (.api ⟨"Numer zamówienia nie może być pusty", some 400⟩)
  else if 50 < numerZamowienia.length then
    .error (.api ⟨"Numer zamówienia jest zbyt długi (max 50 znaków)", some 400⟩)
  else
    .ok (jsTrimStr numerZamowienia)

/-- `handleVerifyOrder` up to the outbound call (orderVerification.ts lines
63-76): `.ok s` means `apiClient.verifyOrder` reaches `makeRequest`, i.e. an
outbound verification request with order number `s` is made; `.error`
means the call fails before any outbound request. -/
def handleVerifyOrderOutbound (args : VerifyArgs) : Except VerifyFailure String :=
  match args with
  | .noArgs => .error (.invalidToolArgs "Nieprawidłowe argumenty narzędzia")
  | .missingField => .error (.invalidToolArgs "Parametr numer_zamowienia musi być ciągiem znaków")
  | .nonString => .error (.invalidToolArgs "Parametr numer_zamowienia musi być ciągiem znaków")
  | .str s => verifyOrderValidate s

/-- `InvalidArguments`-classed failures: the handler's own argument
validation errors and 400-coded `ApiError`s. -/
def isInvalidArgumentsClass : VerifyFailure → Bool
  | .invalidToolArgs _ => true
  | .api e => e.statusCode == some 400

/-- Substring containment on character lists (the semantics of JS
`String.prototype.includes`): `p` occurs contiguously inside `l`. -/
def substrIn (p : List Char) : List Char → Bool
  | [] => p.isEmpty
  | c :: cs => p.isPrefixOf (c :: cs) || substrIn p cs

/-- Whether an error message names the `numer_zamowienia` argument, either
by its wire name or by its Polish reading "numer zamówienia" (matched on
the tail to cover a capitalised "Numer"). -/
def namesOrderArgument (m : String) : Bool :=
  substrIn "numer_zamowienia".toList m.toList ||
    substrIn "umer zamówienia".toList m.toList

/- ====================================================================
   Retry wrapper — src/services/apiClient.ts (executeWithRetry)
   ==================================================================== -/

/-- `error.statusCode || 500` (apiClient.ts line 193): JS `||` falls back on
the falsy values `undefined` and `0`. -/
def effectiveStatus (e : ApiErr) : Nat :=
  match e.statusCode with
  | none => 500
  | some 0 => 500
  | some n => n

/-- The retry classification (apiClient.ts lines 194-197):
timeout 408, rate limit 429, or any server error `>= 500`. -/
def shouldRetry (e : ApiErr) : Bool :=
  effectiveStatus e == 408 || effectiveStatus e == 429 || decide (500 ≤ effectiveStatus e)

/-- Observable behaviour of one `executeWithRetry` run: how many times the
operation was invoked, the backoff delays slept between attempts (in
order), and the value returned / error thrown. -/
structure RetryTrace (α : Type) where
  attempts : Nat
  delays : List Nat
  result : Except ApiErr α
deriving Repr

/-- The `for (let attempt = 0; attempt <= maxRetries; attempt++)` loop of
`executeWithRetry` (apiClient.ts lines 178-213), with `fuel` the number of
attempts still allowed after the current one (`maxRetries - attempt`).
Within `ApiClient.verifyOrder` every failure of the operation is an
`ApiError` (thrown by `makeRequest`), so the operation is modelled as
`Nat → Except ApiErr α` indexed by the attempt number.
At `fuel = 0` (`attempt === maxRetries`) any error is rethrown; otherwise a
retryable error sleeps `delayMs * 2 ^ attempt` and loops, and a
non-retryable error is rethrown at once. -/
def retryAux {α : Type} (op : Nat → Except ApiErr α) (delayMs attempt : Nat) :
    Nat → RetryTrace α
  | 0 => { attempts := 1, delays := [], result := op attempt }
  | fuel + 1 =>
    match op attempt with
    | .ok v => { attempts := 1, delays := [], result := .ok v }
    | .error e =>
      if shouldRetry e then
        let rest := retryAux op delayMs (attempt + 1) fuel
        { attempts := rest.attempts + 1
          delays := delayMs * 2 ^ attempt :: rest.delays
          result := rest.result }
      else { attempts := 1, delays := [], result := .error e }

/-- `executeWithRetry(operation, maxRetries = 2, delayMs = 1000)`
(apiClient.ts lines 178-182). -/
def executeWithRetry {α : Type} (op : Nat → Except ApiErr α) (maxRetries delayMs : Nat) :
    RetryTrace α :=
  retryAux op delayMs 0 maxRetries

/- ====================================================================
   SQL limiter — src/services/databaseClient.ts (executeSQLWithLimit)
   ==================================================================== -/

/-- JS `String.prototype.toUpperCase` restricted to ASCII letters (the only
characters the SQL claims exercise); other characters are unchanged. -/
def upChar : Char → Char
  | 'a' => 'A' | 'b' => 'B' | 'c' => 'C' | 'd' => 'D' | 'e' => 'E' | 'f' => 'F'
  | 'g' => 'G' | 'h' => 'H' | 'i' => 'I' | 'j' => 'J' | 'k' => 'K' | 'l' => 'L'
  | 'm' => 'M' | 'n' => 'N' | 'o' => 'O' | 'p' => 'P' | 'q' => 'Q' | 'r' => 'R'
  | 's' => 'S' | 't' => 'T' | 'u' => 'U' | 'v' => 'V' | 'w' => 'W' | 'x' => 'X'
  | 'y' => 'Y' | 'z' => 'Z'
  | c => c

def upperChars (l : List Char) : List Char := l.map upChar

/-- `query.trim().toUpperCase()` (databaseClient.ts line 252). -/
def trimmedUpper (q : List Char) : List Char := upperChars (trimChars q)

/-- `const dangerousKeywords = ['DROP', 'DELETE', 'TRUNCATE', 'INSERT',
'UPDATE', 'ALTER']` (databaseClient.ts line 263). -/
def dangerousKeywords : List String :=
  ["DROP", "DELETE", "TRUNCATE", "INSERT", "UPDATE", "ALTER"]

def jsDigit (c : Char) : Bool := '0' ≤ c && c ≤ '9'

def digitsToNat (ds : List Char) : Nat :=
  ds.foldl (fun n c => n * 10 + (c.toNat - '0'.toNat)) 0

/-- A `/LIMIT\s+(\d+)/` match anchored at the head of `l`: the literal
`LIMIT`, one or more whitespace characters, one or more digits (greedy, as
the regex captures).  Returns the captured number and the match length. -/
def limitMatchAt (l : List Char) : Option (Nat × Nat) :=
  if "LIMIT".toList.isPrefixOf l then
    let rest := l.drop 5
    let ws := rest.takeWhile jsWhitespace
    if ws.isEmpty then none
    else
      let ds := (rest.drop ws.length).takeWhile jsDigit
      if ds.isEmpty then none
      else some (digitsToNat ds, 5 + ws.length + ds.length)
  else none

/-- `trimmedQuery.match(/LIMIT\s+(\d+)/)` (databaseClient.ts line 285):
leftmost match wins; returns the captured number. -/
def findLimitMatch : List Char → Option Nat
  | [] => none
  | c :: cs =>
    match limitMatchAt (c :: cs) with
    | some (n, _) => some n
    | none => findLimitMatch cs

/-- A `/LIMIT\s+\d+/i` match anchored at the head of `l` (case-insensitive
via uppercasing); returns the match length. -/
def limitMatchLenCI (l : List Char) : Option Nat :=
  match limitMatchAt (upperChars l) with
  | some (_, len) => some len
  | none => none

/-- `finalQuery.replace(/LIMIT\s+\d+/i, 'LIMIT n')` (databaseClient.ts line
290): replace the leftmost case-insensitive `LIMIT <digits>` occurrence. -/
def replaceFirstLimit (n : Nat) : List Char → List Char
  | [] => []
  | c :: cs =>
    match limitMatchLenCI (c :: cs) with
    | some len => ("LIMIT " ++ toString n).toList ++ (c :: cs).drop len
    | none => c :: replaceFirstLimit n cs

/-- Error messages of the two 400-level guards (databaseClient.ts lines
255-271). -/
def onlySelectMsg : String :=
  "Only SELECT queries are allowed. For data modification, use appropriate MCP tools."

def dangerousKeywordMsg (kw : String) : String :=
  "Query contains dangerous keyword: " ++ kw ++ ". Only SELECT queries are allowed."

/-- The LIMIT stage (databaseClient.ts lines 277-294) applied to the
trimmed original-case query `q0`, driven by the uppercased `tq`:
append ` LIMIT effectiveLimit` when the uppercased query has no `LIMIT`
substring; otherwise look for the first `LIMIT <digits>` and shrink it only
when it exceeds the effective limit.  Returns `(finalQuery, limited)`. -/
def limitStage (tq q0 : List Char) (effectiveLimit : Nat) : List Char × Bool :=
  if !(substrIn "LIMIT".toList tq) then
    (q0 ++ (" LIMIT " ++ toString effectiveLimit).toList, true)
  else
    match findLimitMatch tq with
    | some requestedLimit =>
      if effectiveLimit < requestedLimit then (replaceFirstLimit effectiveLimit q0, true)
      else (q0, false)
    | none => (q0, false)

/-- The OFFSET stage (databaseClient.ts lines 297-301): append
` OFFSET offset` when `offset > 0` and the uppercased query has no `OFFSET`
substring. -/
def offsetStage (tq fq : List Char) (offset : Nat) : List Char :=
  if 0 < offset && !(substrIn "OFFSET".toList tq) then
    fq ++ (" OFFSET " ++ toString offset).toList
  else fq

/-- Result of `executeSQLWithLimit` when it reaches `executeRawSQL`:
the exact query string handed to the database and the `limited` flag. -/
structure SqlExec where
  finalQuery : List Char
  limited : Bool
deriving DecidableEq, Repr

/-- `DatabaseClient.executeSQLWithLimit(query, limit?, offset = 0)`
(databaseClient.ts lines 243-321), up to the `executeRawSQL` call:
`.error` means an `ApiError` is thrown with no query executed; `.ok` means
`executeRawSQL(finalQuery)` runs.  `dql` is `this.defaultQueryLimit`
(`config.defaultQueryLimit || 50`, default 50), and
`effectiveLimit = limit !== undefined ? limit : this.defaultQueryLimit`. -/
def executeSQLWithLimit (dql : Nat) (query : List Char) (limit : Option Nat)
    (offset : Nat) : Except ApiErr SqlExec :=
  let tq := trimmedUpper query
  if !("SELECT".toList.isPrefixOf tq) then
    .error ⟨onlySelectMsg, some 400⟩
  else
    match dangerousKeywords.find? (fun kw => substrIn kw.toList tq) with
    | some kw => .error ⟨dangerousKeywordMsg kw, some 400⟩
    | none =>
      let effectiveLimit := limit.getD dql
      let (fq, limited) := limitStage tq (trimChars query) effectiveLimit
      .ok ⟨offsetStage tq fq offset, limited⟩

/- ====================================================================
   Theorems
   ==================================================================== -/

/-- Interleaved `storeEvent` calls project, per session, to a fold of the
per-session push on that session's appends only. -/
theorem runStore_lookup (ops : List StoreOp) (st : EventStore) (sid : String) :
    (ops.foldl (fun st o => storeEvent st o.1 o.2.1 o.2.2) st) sid
      = (appendsOf sid ops).foldl pushEvent (st sid) := by
  induction ops generalizing st with
  | nil => rfl
  | cons o ops ih =>
    simp only [List.foldl_cons]
    rw [ih]
    by_cases h : o.1 = sid
    · simp [appendsOf, storeEvent, h, List.filter_cons]
    · have h' : ¬(sid = o.1) := fun hc => h hc.symm
      simp [appendsOf, storeEvent, h, h', List.filter_cons]

/-- `pushEvent` in if-then-else form. -/
theorem pushEvent_eq (es : List StoredEvent) (e : StoredEvent) :
    pushEvent es e
      = if maxEventsPerSession < es.length + 1 then (es ++ [e]).tail else es ++ [e] := by
  simp [pushEvent]

/-- The fold of the capped push retains exactly the last
`min length maxEventsPerSession` of the appended events. -/
theorem foldl_pushEvent_window (l : List StoredEvent) :
    l.foldl pushEvent [] = l.drop (l.length - min l.length maxEventsPerSession) := by
  induction l using List.reverseRecOn with
  | nil => rfl
  | append_singleton l e ih =>
    rw [List.foldl_append]
    simp only [List.foldl_cons, List.foldl_nil]
    rw [ih, pushEvent_eq]
    have hm : maxEventsPerSession = 100 := rfl
    set n := l.length with hn
    by_cases hcap : n < maxEventsPerSession
    · have h1 : n - min n maxEventsPerSession = 0 := by omega
      have h2 : (l ++ [e]).length - min (l ++ [e]).length maxEventsPerSession = 0 := by
        simp only [List.length_append, List.length_singleton]
        omega
      rw [h1, List.drop_zero]
      rw [if_neg (by omega)]
      rw [h2, List.drop_zero]
    · push_neg at hcap
      have hk : n - min n maxEventsPerSession = n - maxEventsPerSession := by omega
      have hw : (l.drop (n - maxEventsPerSession)).length = maxEventsPerSession := by
        simp only [List.length_drop, ← hn]
        omega
      rw [hk]
      have hpos : maxEventsPerSession < (l.drop (n - maxEventsPerSession)).length + 1 := by
        rw [hw]
        exact Nat.lt_succ_self _
      rw [if_pos hpos]
      have hne : l.drop (n - maxEventsPerSession) ≠ [] := by
        intro hnil
        rw [hnil] at hw
        simp [maxEventsPerSession] at hw
      rw [List.tail_append_of_ne_nil hne, List.tail_drop]
      have h3 : (l ++ [e]).length - min (l ++ [e]).length maxEventsPerSession
          = n - maxEventsPerSession + 1 := by
        simp only [List.length_append, List.length_singleton, ← hn]
        omega
      rw [h3, List.drop_append_of_le_length (by omega)]

/-- `findIdx?` locates the `i`-th element when the projected keys are
duplicate-free. -/
theorem findIdx?_nodup_get (l : List StoredEvent) (i : Nat) (hi : i < l.length)
    (hnd : (l.map StoredEvent.id).Nodup) :
    ∀ s : Nat, l.findIdx? (fun e => e.id == (l.get ⟨i, hi⟩).id) s = some (s + i) := by
  induction l generalizing i with
  | nil => exact absurd hi (by simp)
  | cons x xs ih =>
    intro s
    match i with
    | 0 =>
      simp [List.findIdx?]
    | j + 1 =>
      have hj : j < xs.length := by simpa using hi
      have hx : ¬(x.id == (xs.get ⟨j, hj⟩).id) = true := by
        simp only [List.map_cons, List.nodup_cons] at hnd
        intro hbe
        exact hnd.1 (by
          rw [beq_iff_eq] at hbe
          rw [hbe]
          exact List.mem_map_of_mem StoredEvent.id (xs.get_mem j hj))
      have hnd' : (xs.map StoredEvent.id).Nodup := by
        simp only [List.map_cons, List.nodup_cons] at hnd
        exact hnd.2
      have := ih j hj hnd' (s + 1)
      simp only [List.get_cons_succ]
      rw [List.findIdx?]
      simp only [hx, if_neg, Bool.false_eq_true, not_false_iff]
      rw [this]
      congr 1
      omega

/-- C3: after any interleaved sequence of `storeEvent` calls, each session
retains at most `maxEventsPerSession = 100` events, and the retained window
is exactly the suffix of everything ever appended to that session past the
evicted oldest events — i.e. eviction is FIFO and the window is a
contiguous suffix in append order. -/
theorem eventlog_C3_bounded_fifo_window (ops : List StoreOp) (sid : String) :
    runStore ops sid
      = (appendsOf sid ops).drop
          ((appendsOf sid ops).length - min (appendsOf sid ops).length maxEventsPerSession)
    ∧ (runStore ops sid).length ≤ maxEventsPerSession := by
  have h : runStore ops sid = (appendsOf sid ops).foldl pushEvent [] :=
    runStore_lookup ops emptyStore sid
  rw [h, foldl_pushEvent_window]
  refine ⟨rfl, ?_⟩
  simp only [List.length_drop]
  omega

/-- C2 counterexample: the source treats an empty-string `lastEventId` as
absent (`if (!lastEventId)` — JS falsiness), so replaying since the id of a
stored event whose id is `""` returns the whole window, not the suffix
strictly after that event, even though both events fit the retention cap. -/
theorem eventlog_C2_cex :
    getEventsSince (runStore [("s", "", "x"), ("s", "b", "y")]) "s" (some "")
        = [⟨"", "x"⟩, ⟨"b", "y"⟩]
      ∧ getEventsSince (runStore [("s", "", "x"), ("s", "b", "y")]) "s" (some "")
        ≠ [⟨"b", "y"⟩] := by
  constructor
  · decide
  · decide

/-- C2 (amended): within the retention cap, replay with an absent
`lastSeenId` returns all of the session's events in append order, and —
provided the stored ids are pairwise distinct and the referenced id is not
the empty string (which JS falsiness conflates with "absent") — replay
since the id of the `i`-th stored event returns exactly the suffix of
events appended strictly after it. -/
theorem eventlog_C2_replay_suffix (ops : List StoreOp) (sid : String)
    (hcap : (appendsOf sid ops).length ≤ maxEventsPerSession) :
    getEventsSince (runStore ops) sid none = appendsOf sid ops
      ∧ ∀ (i : Nat) (hi : i < (appendsOf sid ops).length),
          ((appendsOf sid ops).get ⟨i, hi⟩).id ≠ "" →
          ((appendsOf sid ops).map StoredEvent.id).Nodup →
          getEventsSince (runStore ops) sid (some ((appendsOf sid ops).get ⟨i, hi⟩).id)
            = (appendsOf sid ops).drop (i + 1) := by
  have hwin : runStore ops sid = appendsOf sid ops := by
    have h := (eventlog_C3_bounded_fifo_window ops sid).1
    rw [h]
    have : (appendsOf sid ops).length - min (appendsOf sid ops).length maxEventsPerSession
        = 0 := by omega
    rw [this, List.drop_zero]
  constructor
  · simpa [getEventsSince] using hwin
  · intro i hi hne hnd
    have hfind := findIdx?_nodup_get (appendsOf sid ops) i hi hnd 0
    simp only [Nat.zero_add] at hfind
    simp only [getEventsSince, hwin, if_neg hne, hfind]

/-- Witness for `eventlog_C2_replay_suffix` at a two-event session. -/
theorem eventlog_C2_replay_suffix_witness :
    getEventsSince (runStore [("s", "a", "x"), ("s", "b", "y")]) "s" (some "a")
      = [⟨"b", "y"⟩] := by
  have h := (eventlog_C2_replay_suffix [("s", "a", "x"), ("s", "b", "y")] "s"
    (by decide)).2 0 (by decide) (by decide) (by decide)
  exact h

/-- C4: a `lastEventId` matching none of the session's retained events (it
was evicted, or never existed) makes `getEventsSince` return the entire
retained window of that session, in order, with no failure. -/
theorem eventlog_C4_unknown_id_full_window (st : EventStore) (sid lid : String)
    (h : ∀ e ∈ st sid, e.id ≠ lid) :
    getEventsSince st sid (some lid) = st sid := by
  by_cases he : lid = ""
  · simp [getEventsSince, he]
  · have hfind : (st sid).findIdx? (fun e => e.id == lid) = none := by
      rw [List.findIdx?_eq_none_iff]
      intro e hmem
      simpa using h e hmem
    simp [getEventsSince, he, hfind]

/-- Witness for `eventlog_C4_unknown_id_full_window`. -/
theorem eventlog_C4_unknown_id_full_window_witness :
    getEventsSince (runStore [("s", "a", "x")]) "s" (some "zz")
      = runStore [("s", "a", "x")] "s" :=
  eventlog_C4_unknown_id_full_window (runStore [("s", "a", "x")]) "s" "zz" (by decide)

/-- C9: for a session with no retained events — never stored to, or cleared
— both read operations return the empty sequence for every `lastEventId`
(absent included), without failing; a session none of whose store calls
targeted it retains nothing, and clearing a session empties it. -/
theorem eventlog_C9_unknown_session_empty (st : EventStore) (sid : String)
    (lid : Option String) (h : st sid = []) :
    getEventsSince st sid lid = []
      ∧ replayEventsAfter st sid lid = []
      ∧ (∀ ops : List StoreOp, (∀ o ∈ ops, o.1 ≠ sid) → runStore ops sid = [])
      ∧ clearSession st sid sid = [] := by
  have hget : getEventsSince st sid lid = [] := by
    match lid with
    | none => simp [getEventsSince, h]
    | some lid =>
      by_cases he : lid = "" <;> simp [getEventsSince, h, he]
  refine ⟨hget, hget, ?_, by simp [clearSession]⟩
  intro ops hops
  have happ : appendsOf sid ops = [] := by
    simp only [appendsOf, List.map_eq_nil_iff]
    rw [List.filter_eq_nil_iff]
    intro o ho
    simpa using hops o ho
  have hrun : runStore ops sid = (appendsOf sid ops).foldl pushEvent [] :=
    runStore_lookup ops emptyStore sid
  rw [hrun, happ]
  rfl

/-- Witness for `eventlog_C9_unknown_session_empty`: reads on a session the
store has never seen. -/
theorem eventlog_C9_unknown_session_empty_witness :
    getEventsSince (runStore [("t", "a", "x")]) "s" (some "a") = [] :=
  (eventlog_C9_unknown_session_empty (runStore [("t", "a", "x")]) "s" (some "a")
    (by decide)).1

/-- C1: a POST to the MCP endpoint that carries a session identifier (a
nonempty `mcp-session-id` value; an absent or empty header value is falsy
in the source and carries no identifier) unknown to the transports map, or
that carries no identifier while its body is not an initialize request, is
answered with the HTTP 400 body carrying JSON-RPC code -32000, and the
registry is left untouched — no session is created, no transport
registered, no tool handler reached; conversely, the new-session branch
runs exactly when no identifier is carried and the body is an initialize
request. -/
theorem http_C1_post_session_guard (transports : Transports) (sessionId : Option String)
    (isInit : Bool) (freshId : String) :
    (((∃ s, sessionId = some s ∧ s ≠ "" ∧ s ∉ transports)
        ∨ (headerTruthy sessionId = false ∧ isInit = false)) →
      postMcp transports sessionId isInit = .badRequest 400 (-32000)
        ∧ postMcpTransports transports sessionId isInit freshId = transports)
    ∧ (postMcp transports sessionId isInit = .newSession
        ↔ headerTruthy sessionId = false ∧ isInit = true) := by
  constructor
  · intro h
    have hbad : postMcp transports sessionId isInit = .badRequest 400 (-32000) := by
      rcases h with ⟨s, hs, hne, hmem⟩ | ⟨hfalsy, hinit⟩
      · subst hs
        simp [postMcp, hne, hmem]
      · match sessionId with
        | none => simp [postMcp, hinit]
        | some s =>
          simp only [headerTruthy, Bool.not_eq_false'] at hfalsy
          rw [beq_iff_eq] at hfalsy
          simp [postMcp, hfalsy, hinit]
    exact ⟨hbad, by simp [postMcpTransports, hbad]⟩
  · constructor
    · intro h
      match sessionId with
      | none =>
        simp only [postMcp] at h
        constructor
        · rfl
        · by_cases hi : isInit = true
          · exact hi
          · simp [hi] at h
      | some s =>
        by_cases hs : s = ""
        · subst hs
          simp only [postMcp, if_pos rfl] at h
          refine ⟨by simp [headerTruthy], ?_⟩
          by_cases hi : isInit = true
          · exact hi
          · simp [hi] at h
        · simp only [postMcp, if_neg hs] at h
          by_cases hmem : s ∈ transports
          · simp [hmem] at h
          · simp [hmem] at h
    · rintro ⟨hfalsy, hinit⟩
      match sessionId with
      | none => simp [postMcp, hinit]
      | some s =>
        simp only [headerTruthy, Bool.not_eq_false'] at hfalsy
        rw [beq_iff_eq] at hfalsy
        simp [postMcp, hfalsy, hinit]

/-- Witness for `http_C1_post_session_guard`: an unknown nonempty id is
rejected with HTTP 400, code -32000, and registers nothing. -/
theorem http_C1_post_session_guard_witness :
    postMcp ["u1"] (some "u2") true = .badRequest 400 (-32000)
      ∧ postMcpTransports ["u1"] (some "u2") true "fresh" = ["u1"] :=
  (http_C1_post_session_guard ["u1"] (some "u2") true "fresh").1
    (Or.inl ⟨"u2", rfl, by decide, by decide⟩)

/-- C5: terminating a registered session succeeds and removes its binding
from the registry; a second DELETE with the same identifier — and any
DELETE with an identifier never registered, or with no identifier at all —
is answered with the HTTP 400 guard, leaving the registry unchanged. -/
theorem http_C5_terminate_idempotent (transports : Transports) (s : String)
    (hmem : s ∈ transports) (hne : s ≠ "") :
    (deleteMcp transports (some s)).1 = .terminated
      ∧ s ∉ (deleteMcp transports (some s)).2
      ∧ deleteMcp (deleteMcp transports (some s)).2 (some s)
          = (.badRequest400, (deleteMcp transports (some s)).2)
      ∧ (∀ u : String, u ∉ transports → deleteMcp transports (some u)
          = (.badRequest400, transports))
      ∧ deleteMcp transports none = (.badRequest400, transports) := by
  have hfst : deleteMcp transports (some s)
      = (.terminated, transports.filter (fun t => !(t == s))) := by
    simp [deleteMcp, hne, hmem]
  refine ⟨by rw [hfst], ?_, ?_, ?_, by simp [deleteMcp]⟩
  · rw [hfst]
    simp
  · rw [hfst]
    have hnotin : s ∉ transports.filter (fun t => !(t == s)) := by
      intro hin
      have := List.mem_filter.mp hin
      simp at this
    simp [deleteMcp, hne, hnotin]
  · intro u hu
    by_cases hue : u = ""
    · simp [deleteMcp, hue]
    · simp [deleteMcp, hue, hu]

/-- Witness for `http_C5_terminate_idempotent` on a two-session registry. -/
theorem http_C5_terminate_idempotent_witness :
    (deleteMcp ["u1", "u2"] (some "u1")).1 = .terminated
      ∧ "u1" ∉ (deleteMcp ["u1", "u2"] (some "u1")).2
      ∧ deleteMcp (deleteMcp ["u1", "u2"] (some "u1")).2 (some "u1")
          = (.badRequest400, (deleteMcp ["u1", "u2"] (some "u1")).2) := by
  have h := http_C5_terminate_idempotent ["u1", "u2"] "u1" (by decide) (by decide)
  exact ⟨h.1, h.2.1, h.2.2.1⟩

/-- C6: a `verify_order` call whose arguments lack the required
`numer_zamowienia` string — or whose value is out of range (empty, or
longer than the 50-character maximum) — fails with an
`InvalidArguments`-classed error whose message names that argument, and no
outbound verification request is made (the `.error` result means
`makeRequest` is never reached; in the Streamable-HTTP server the zod
schema `min(1).max(50)` additionally rejects such calls before the handler
runs). -/
theorem verify_C6_invalid_args_rejected (args : VerifyArgs)
    (h : args = .missingField ∨ ∃ s, args = .str s ∧ (s = "" ∨ 50 < s.length)) :
    ∃ e, handleVerifyOrderOutbound args = .error e
      ∧ isInvalidArgumentsClass e = true
      ∧ namesOrderArgument e.message = true := by
  rcases h with h | ⟨s, hs, hrange⟩
  · subst h
    exact ⟨.invalidToolArgs "Parametr numer_zamowienia musi być ciągiem znaków",
      rfl, rfl, by decide⟩
  · subst hs
    rcases hrange with hs0 | hlong
    · subst hs0
      refine ⟨.api ⟨"Numer zamówienia nie może być pusty", some 400⟩, ?_, rfl, by decide⟩
      have htrim : (jsTrimStr "").length = 0 := by decide
      simp [handleVerifyOrderOutbound, verifyOrderValidate, htrim]
    · by_cases htrim : (jsTrimStr s).length = 0
      · refine ⟨.api ⟨"Numer zamówienia nie może być pusty", some 400⟩, ?_, rfl, by decide⟩
        simp [handleVerifyOrderOutbound, verifyOrderValidate, htrim]
      · refine ⟨.api ⟨"Numer zamówienia jest zbyt długi (max 50 znaków)", some 400⟩,
          ?_, rfl, by decide⟩
        simp [handleVerifyOrderOutbound, verifyOrderValidate, htrim, hlong]

/-- Witness for `verify_C6_invalid_args_rejected` at a 51-character order
number. -/
theorem verify_C6_invalid_args_rejected_witness :
    ∃ e, handleVerifyOrderOutbound (.str (String.mk (List.replicate 51 'a'))) = .error e
      ∧ isInvalidArgumentsClass e = true
      ∧ namesOrderArgument e.message = true :=
  verify_C6_invalid_args_rejected (.str (String.mk (List.replicate 51 'a')))
    (Or.inr ⟨_, rfl, Or.inr (by decide)⟩)

/-- Each retry run makes at least one attempt. -/
theorem retryAux_attempts_pos {α : Type} (op : Nat → Except ApiErr α) (d : Nat) :
    ∀ (fuel a : Nat), 1 ≤ (retryAux op d a fuel).attempts := by
  intro fuel
  induction fuel with
  | zero => intro a; simp [retryAux]
  | succ k ih =>
    intro a
    simp only [retryAux]
    match op a with
    | .ok v => simp
    | .error e =>
      by_cases hr : shouldRetry e
      · simp only [hr, if_pos]
        omega
      · simp [hr]

/-- The attempt count is bounded by the fuel plus the current attempt. -/
theorem retryAux_attempts_le {α : Type} (op : Nat → Except ApiErr α) (d : Nat) :
    ∀ (fuel a : Nat), (retryAux op d a fuel).attempts ≤ fuel + 1 := by
  intro fuel
  induction fuel with
  | zero => intro a; simp [retryAux]
  | succ k ih =>
    intro a
    simp only [retryAux]
    match op a with
    | .ok v => simp
    | .error e =>
      by_cases hr : shouldRetry e
      · simp only [hr, if_pos]
        have := ih (a + 1)
        omega
      · simp [hr]

/-- The run's result is the outcome of its last attempt. -/
theorem retryAux_result_last {α : Type} (op : Nat → Except ApiErr α) (d : Nat) :
    ∀ (fuel a : Nat),
      (retryAux op d a fuel).result = op (a + ((retryAux op d a fuel).attempts - 1)) := by
  intro fuel
  induction fuel with
  | zero => intro a; simp [retryAux]
  | succ k ih =>
    intro a
    simp only [retryAux]
    match hop : op a with
    | .ok v => simpa using hop.symm
    | .error e =>
      by_cases hr : shouldRetry e
      · simp only [hr, if_pos]
        have hpos := retryAux_attempts_pos op d k (a + 1)
        have := ih (a + 1)
        simp only [Nat.add_sub_cancel]
        rw [this]
        congr 1
        omega
      · simpa [hr] using hop.symm

/-- The delays slept are exactly `delayMs * 2 ^ attempt` for the attempts
that were retried, in order. -/
theorem retryAux_delays {α : Type} (op : Nat → Except ApiErr α) (d : Nat) :
    ∀ (fuel a : Nat),
      (retryAux op d a fuel).delays
        = (List.range ((retryAux op d a fuel).attempts - 1)).map
            (fun i => d * 2 ^ (a + i)) := by
  intro fuel
  induction fuel with
  | zero => intro a; simp [retryAux]
  | succ k ih =>
    intro a
    simp only [retryAux]
    match op a with
    | .ok v => simp
    | .error e =>
      by_cases hr : shouldRetry e
      · simp only [hr, if_pos]
        have hpos := retryAux_attempts_pos op d k (a + 1)
        simp only [Nat.add_sub_cancel]
        obtain ⟨m, hm⟩ : ∃ m, (retryAux op d (a + 1) k).attempts = m + 1 :=
          ⟨(retryAux op d (a + 1) k).attempts - 1, by omega⟩
        rw [ih (a + 1), hm]
        simp only [Nat.add_sub_cancel, List.range_succ_eq_map, List.map_cons, List.map_map]
        congr 1
        apply List.map_congr_left
        intro i _
        have hx : a + 1 + i = a + (i + 1) := by omega
        simp [Function.comp_apply, hx]
      · simp [hr]

/-- Every attempt that was followed by another one failed with a
retry-classed error. -/
theorem retryAux_retried_only_retryable {α : Type} (op : Nat → Except ApiErr α) (d : Nat) :
    ∀ (fuel a j : Nat), j + 1 < (retryAux op d a fuel).attempts →
      ∃ e, op (a + j) = .error e ∧ shouldRetry e = true := by
  intro fuel
  induction fuel with
  | zero =>
    intro a j h
    simp [retryAux] at h
  | succ k ih =>
    intro a j h
    simp only [retryAux] at h
    match hop : op a with
    | .ok v => rw [hop] at h; simp at h
    | .error e =>
      rw [hop] at h
      by_cases hr : shouldRetry e
      · simp only [hr, if_pos] at h
        match j with
        | 0 => exact ⟨e, by simpa using hop, hr⟩
        | j + 1 =>
          have := ih (a + 1) j (by omega)
          simpa [Nat.add_assoc, Nat.add_comm 1 j] using this
      · simp [hr] at h

/-- If the run stops with attempts left over and its result is an error,
that error is not retry-classed (it was propagated immediately). -/
theorem retryAux_early_stop {α : Type} (op : Nat → Except ApiErr α) (d : Nat) :
    ∀ (fuel a : Nat), (retryAux op d a fuel).attempts ≤ fuel →
      ∀ e, (retryAux op d a fuel).result = .error e → shouldRetry e = false := by
  intro fuel
  induction fuel with
  | zero =>
    intro a h
    simp [retryAux] at h
  | succ k ih =>
    intro a h e' hres
    simp only [retryAux] at h hres
    match hop : op a with
    | .ok v => rw [hop] at hres; simp at hres
    | .error e =>
      rw [hop] at h hres
      by_cases hr : shouldRetry e
      · simp only [hr, if_pos] at h hres
        exact ih (a + 1) (by omega) e' hres
      · simp only [hr, if_neg, Bool.false_eq_true, not_false_iff] at h hres
        simp only [Except.error.injEq] at hres
        rw [← hres]
        simpa using hr

/-- C7: `executeWithRetry` makes between 1 and `maxRetries + 1` attempts
(3 with the default `maxRetries = 2`); its result is the outcome of the
last attempt made (so on exhaustion the last error is propagated); the
delays slept between attempts are exactly `delayMs * 2 ^ attempt`
(exponential backoff) for the attempts that were retried, in order; an
attempt is followed by another only if it failed with a retry-classed
error — timeout 408, rate limit 429, or status ≥ 500 — and a run that
stopped early on an error did so on a non-retryable (other 4xx) error,
propagated immediately. -/
theorem retry_C7_bounded_backoff {α : Type} (op : Nat → Except ApiErr α)
    (maxRetries delayMs : Nat) :
    (1 ≤ (executeWithRetry op maxRetries delayMs).attempts
        ∧ (executeWithRetry op maxRetries delayMs).attempts ≤ maxRetries + 1)
      ∧ (executeWithRetry op maxRetries delayMs).result
          = op ((executeWithRetry op maxRetries delayMs).attempts - 1)
      ∧ (executeWithRetry op maxRetries delayMs).delays
          = (List.range ((executeWithRetry op maxRetries delayMs).attempts - 1)).map
              (fun i => delayMs * 2 ^ i)
      ∧ (∀ j, j + 1 < (executeWithRetry op maxRetries delayMs).attempts →
          ∃ e, op j = .error e ∧ shouldRetry e = true)
      ∧ ((executeWithRetry op maxRetries delayMs).attempts ≤ maxRetries →
          ∀ e, (executeWithRetry op maxRetries delayMs).result = .error e →
            shouldRetry e = false) := by
  refine ⟨⟨retryAux_attempts_pos op delayMs maxRetries 0,
      retryAux_attempts_le op delayMs maxRetries 0⟩, ?_, ?_, ?_, ?_⟩
  · simpa using retryAux_result_last op delayMs maxRetries 0
  · simpa using retryAux_delays op delayMs maxRetries 0
  · intro j hj
    simpa using retryAux_retried_only_retryable op delayMs maxRetries 0 j hj
  · exact retryAux_early_stop op delayMs maxRetries 0

/-- Witness for `retry_C7_bounded_backoff`: a 404 (client error other than
408/429) is propagated after a single attempt, with no retries. -/
theorem retry_C7_bounded_backoff_witness :
    shouldRetry ⟨"nf", some 404⟩ = false
      ∧ (executeWithRetry (fun _ => (Except.error ⟨"nf", some 404⟩ : Except ApiErr Nat))
          2 1000).attempts ≤ 3 := by
  have h := retry_C7_bounded_backoff
    (fun _ => (Except.error ⟨"nf", some 404⟩ : Except ApiErr Nat)) 2 1000
  exact ⟨h.2.2.2.2 (by decide) ⟨"nf", some 404⟩ rfl, h.1.2⟩

/-- `List.isPrefixOf` characterised by an existential split. -/
theorem isPrefixOf_eq (p : List Char) :
    ∀ l, p.isPrefixOf l = true ↔ ∃ t, l = p ++ t := by
  induction p with
  | nil =>
    intro l
    simp [List.isPrefixOf]
  | cons a as ih =>
    intro l
    match l with
    | [] =>
      simp [List.isPrefixOf]
    | b :: bs =>
      simp only [List.isPrefixOf, Bool.and_eq_true, beq_iff_eq, ih bs]
      constructor
      · rintro ⟨rfl, t, rfl⟩
        exact ⟨t, rfl⟩
      · rintro ⟨t, ht⟩
        injection ht with h1 h2
        exact ⟨h1.symm, t, h2⟩

/-- `substrIn` characterised by an existential split. -/
theorem substrIn_eq (p : List Char) :
    ∀ l, substrIn p l = true ↔ ∃ a b, l = a ++ (p ++ b) := by
  intro l
  induction l with
  | nil =>
    simp only [substrIn, List.isEmpty_iff]
    constructor
    · rintro rfl
      exact ⟨[], [], rfl⟩
    · rintro ⟨a, b, h⟩
      rcases List.append_eq_nil.mp h.symm with ⟨ha, hpb⟩
      exact (List.append_eq_nil.mp hpb).1
  | cons c cs ih =>
    simp only [substrIn, Bool.or_eq_true, isPrefixOf_eq, ih]
    constructor
    · rintro (⟨t, ht⟩ | ⟨a, b, hab⟩)
      · exact ⟨[], t, by simpa using ht⟩
      · exact ⟨c :: a, b, by simp [hab]⟩
    · rintro ⟨a, b, h⟩
      match a, h with
      | [], h => exact Or.inl ⟨b, by simpa using h⟩
      | a' :: as, h =>
        injection h with h1 h2
        exact Or.inr ⟨as, b, h2⟩

/-- Uppercasing preserves whitespace-ness. -/
theorem ws_upChar (c : Char) : jsWhitespace (upChar c) = jsWhitespace c := by
  unfold upChar
  split <;> rfl

/-- Uppercasing commutes with trimming. -/
theorem upper_trim_comm (l : List Char) :
    upperChars (trimChars l) = trimChars (upperChars l) := by
  have hws : (jsWhitespace ∘ upChar) = jsWhitespace := funext fun c => ws_upChar c
  simp only [upperChars, trimChars, List.dropWhile_map, hws, ← List.map_reverse]

/-- A non-whitespace pattern occurring in a list still occurs after
dropping a whitespace run from the front. -/
theorem substrIn_dropWhile (p l : List Char) (hp : p ≠ [])
    (hpw : ∀ c ∈ p, jsWhitespace c = false) (h : substrIn p l = true) :
    substrIn p (l.dropWhile jsWhitespace) = true := by
  rw [substrIn_eq] at h ⊢
  obtain ⟨a, b, rfl⟩ := h
  rw [List.dropWhile_append]
  by_cases he : (a.dropWhile jsWhitespace).isEmpty = true
  · rw [if_pos he]
    match p, hp with
    | c :: p', _ =>
      have hc : jsWhitespace c = false := hpw c (by simp)
      refine ⟨[], b, ?_⟩
      simp only [List.cons_append, List.dropWhile_cons, hc]
      simp
  · rw [if_neg he]
    exact ⟨a.dropWhile jsWhitespace, b, rfl⟩

/-- `substrIn` respects `reverse`. -/
theorem substrIn_reverse (p l : List Char) (h : substrIn p l = true) :
    substrIn p.reverse l.reverse = true := by
  rw [substrIn_eq] at h ⊢
  obtain ⟨a, b, rfl⟩ := h
  exact ⟨b.reverse, a.reverse, by simp⟩

/-- A nonempty non-whitespace pattern occurring in a list still occurs
after trimming it. -/
theorem substrIn_trim (p l : List Char) (hp : p ≠ [])
    (hpw : ∀ c ∈ p, jsWhitespace c = false) (h : substrIn p l = true) :
    substrIn p (trimChars l) = true := by
  unfold trimChars
  have h1 := substrIn_dropWhile p l hp hpw h
  have h2 := substrIn_reverse p _ h1
  have h3 := substrIn_dropWhile p.reverse _ (by simpa using hp)
    (fun c hc => hpw c (by simpa using hc)) h2
  have h4 := substrIn_reverse p.reverse _ h3
  simpa using h4

/-- Every dangerous keyword is nonempty and whitespace-free. -/
theorem dangerousKeywords_nonempty_nonws :
    ∀ kw ∈ dangerousKeywords, kw.toList ≠ [] ∧ ∀ c ∈ kw.toList, jsWhitespace c = false := by
  decide

/-- A satisfied member makes `find?` fire. -/
theorem find?_isSome_of {α : Type} (l : List α) (pred : α → Bool) (x : α)
    (hx : x ∈ l) (hpx : pred x = true) : ∃ y, l.find? pred = some y := by
  have : (l.find? pred).isSome = true := List.find?_isSome.mpr ⟨x, hx, hpx⟩
  exact Option.isSome_iff_exists.mp this

/-- C10: the keyword filter works by substring, not by token — any query
whose uppercased text contains `DROP`, `DELETE`, `TRUNCATE`, `INSERT`,
`UPDATE` or `ALTER` anywhere (inside an identifier or literal included) is
rejected by `executeSQLWithLimit` with a 400-coded `ApiError` and no query
is executed, even when it begins with `SELECT` and modifies nothing. -/
theorem sql_C10_keyword_substring_filter (dql : Nat) (q : List Char) (lim : Option Nat)
    (off : Nat) (kw : String) (hkw : kw ∈ dangerousKeywords)
    (h : substrIn kw.toList (upperChars q) = true) :
    ∃ e, executeSQLWithLimit dql q lim off = .error e ∧ e.statusCode = some 400 := by
  by_cases hsel : ("SELECT".toList.isPrefixOf (trimmedUpper q)) = true
  · have hkprops := dangerousKeywords_nonempty_nonws kw hkw
    have hkw' : substrIn kw.toList (trimmedUpper q) = true := by
      rw [trimmedUpper, upper_trim_comm]
      exact substrIn_trim _ _ hkprops.1 hkprops.2 h
    obtain ⟨y, hy⟩ := find?_isSome_of dangerousKeywords
      (fun kw => substrIn kw.toList (trimmedUpper q)) kw hkw hkw'
    refine ⟨⟨dangerousKeywordMsg y, some 400⟩, ?_, rfl⟩
    simp only [executeSQLWithLimit, hsel, Bool.not_true, Bool.false_eq_true, if_false, hy]
  · refine ⟨⟨onlySelectMsg, some 400⟩, ?_, rfl⟩
    simp only [Bool.not_eq_true] at hsel
    simp only [executeSQLWithLimit, hsel, Bool.not_false, if_true]

/-- Witness for `sql_C10_keyword_substring_filter`: a pure SELECT over a
column named `updated_at` is rejected because `UPDATED_AT` contains
`UPDATE`. -/
theorem sql_C10_keyword_substring_filter_witness :
    ∃ e, executeSQLWithLimit 50 "SELECT updated_at FROM t".toList none 0 = .error e
      ∧ e.statusCode = some 400 :=
  sql_C10_keyword_substring_filter 50 "SELECT updated_at FROM t".toList none 0
    "UPDATE" (by decide) (by decide)

/-- C8 counterexample: `select limitless from orders` is executed although
the query handed to the database carries no `LIMIT` clause at all — the
`includes('LIMIT')` substring test is satisfied by `LIMITLESS`, the
`/LIMIT\s+(\d+)/` regex then matches nothing, and the code leaves the
query unchanged — so the executed query is not capped by any limit. -/
theorem sql_C8_cex :
    executeSQLWithLimit 50 "select limitless from orders".toList none 0
        = .ok ⟨"select limitless from orders".toList, false⟩
      ∧ findLimitMatch (upperChars "select limitless from orders".toList) = none := by
  exact ⟨rfl, rfl⟩

/-- C8 (amended): the ad-hoc query operation is SELECT-only — a trimmed
query not beginning with `SELECT` (case-insensitive) is rejected with a
400-coded `ApiError` and nothing is executed — and the LIMIT handling of
every executed query is exactly this: a query whose uppercased text does
not contain the substring `LIMIT` is executed as the trimmed query with
` LIMIT <effectiveLimit>` appended (the caller-supplied limit, else the
configured default), plus the offset suffix; a query that does contain
`LIMIT` as a substring is capped — its first case-insensitive
`LIMIT <digits>` occurrence replaced by the effective limit, `limited`
reported — exactly when the first `LIMIT <digits>` match of the uppercased
query exceeds the effective limit, and is executed unchanged (beyond the
offset suffix, with `limited = false`) when that match is within the
effective limit or when no `LIMIT <digits>` matches at all. -/
theorem sql_C8_select_only_and_cap (dql : Nat) (q : List Char) (lim : Option Nat)
    (off : Nat) :
    ("SELECT".toList.isPrefixOf (trimmedUpper q) = false →
        executeSQLWithLimit dql q lim off = .error ⟨onlySelectMsg, some 400⟩)
      ∧ (∀ r, executeSQLWithLimit dql q lim off = .ok r →
          substrIn "LIMIT".toList (trimmedUpper q) = false →
          r.finalQuery
              = offsetStage (trimmedUpper q)
                  (trimChars q ++ (" LIMIT " ++ toString (lim.getD dql)).toList) off
            ∧ r.limited = true)
      ∧ (∀ r n, executeSQLWithLimit dql q lim off = .ok r →
          substrIn "LIMIT".toList (trimmedUpper q) = true →
          findLimitMatch (trimmedUpper q) = some n →
          lim.getD dql < n →
          r.finalQuery
              = offsetStage (trimmedUpper q)
                  (replaceFirstLimit (lim.getD dql) (trimChars q)) off
            ∧ r.limited = true)
      ∧ (∀ r n, executeSQLWithLimit dql q lim off = .ok r →
          substrIn "LIMIT".toList (trimmedUpper q) = true →
          findLimitMatch (trimmedUpper q) = some n →
          n ≤ lim.getD dql →
          r.finalQuery = offsetStage (trimmedUpper q) (trimChars q) off
            ∧ r.limited = false)
      ∧ (∀ r, executeSQLWithLimit dql q lim off = .ok r →
          substrIn "LIMIT".toList (trimmedUpper q) = true →
          findLimitMatch (trimmedUpper q) = none →
          r.finalQuery = offsetStage (trimmedUpper q) (trimChars q) off
            ∧ r.limited = false) := by
  refine ⟨?_, ?_, ?_, ?_, ?_⟩
  · intro hsel
    simp only [executeSQLWithLimit, hsel, Bool.not_false, if_true]
  · intro r hok hnl
    by_cases hsel : ("SELECT".toList.isPrefixOf (trimmedUpper q)) = true
    · simp only [executeSQLWithLimit, hsel, Bool.not_true, Bool.false_eq_true, if_false] at hok
      match hfind : dangerousKeywords.find?
          (fun kw => substrIn kw.toList (trimmedUpper q)) with
      | some kw =>
        rw [hfind] at hok
        simp at hok
      | none =>
        rw [hfind] at hok
        simp only [limitStage, hnl, Bool.not_false, if_true] at hok
        simp only [Except.ok.injEq] at hok
        rw [← hok]
        exact ⟨rfl, rfl⟩
    · simp only [Bool.not_eq_true] at hsel
      simp only [executeSQLWithLimit, hsel, Bool.not_false, if_true] at hok
      simp at hok
  · intro r n hok hnl hfm hlt
    by_cases hsel : ("SELECT".toList.isPrefixOf (trimmedUpper q)) = true
    · simp only [executeSQLWithLimit, hsel, Bool.not_true, Bool.false_eq_true, if_false] at hok
      match hfind : dangerousKeywords.find?
          (fun kw => substrIn kw.toList (trimmedUpper q)) with
      | some kw =>
        rw [hfind] at hok
        simp at hok
      | none =>
        rw [hfind] at hok
        simp only [limitStage, hnl, Bool.not_true, Bool.false_eq_true, if_false, hfm] at hok
        rw [if_pos hlt] at hok
        simp only [Except.ok.injEq] at hok
        rw [← hok]
        exact ⟨rfl, rfl⟩
    · simp only [Bool.not_eq_true] at hsel
      simp only [executeSQLWithLimit, hsel, Bool.not_false, if_true] at hok
      simp at hok
  · intro r n hok hnl hfm hle
    by_cases hsel : ("SELECT".toList.isPrefixOf (trimmedUpper q)) = true
    · simp only [executeSQLWithLimit, hsel, Bool.not_true, Bool.false_eq_true, if_false] at hok
      match hfind : dangerousKeywords.find?
          (fun kw => substrIn kw.toList (trimmedUpper q)) with
      | some kw =>
        rw [hfind] at hok
        simp at hok
      | none =>
        rw [hfind] at hok
        simp only [limitStage, hnl, Bool.not_true, Bool.false_eq_true, if_false, hfm] at hok
        rw [if_neg (by omega)] at hok
        simp only [Except.ok.injEq] at hok
        rw [← hok]
        exact ⟨rfl, rfl⟩
    · simp only [Bool.not_eq_true] at hsel
      simp only [executeSQLWithLimit, hsel, Bool.not_false, if_true] at hok
      simp at hok
  · intro r hok hnl hfm
    by_cases hsel : ("SELECT".toList.isPrefixOf (trimmedUpper q)) = true
    · simp only [executeSQLWithLimit, hsel, Bool.not_true, Bool.false_eq_true, if_false] at hok
      match hfind : dangerousKeywords.find?
          (fun kw => substrIn kw.toList (trimmedUpper q)) with
      | some kw =>
        rw [hfind] at hok
        simp at hok
      | none =>
        rw [hfind] at hok
        simp only [limitStage, hnl, Bool.not_true, Bool.false_eq_true, if_false, hfm] at hok
        simp only [Except.ok.injEq] at hok
        rw [← hok]
        exact ⟨rfl, rfl⟩
    · simp only [Bool.not_eq_true] at hsel
      simp only [executeSQLWithLimit, hsel, Bool.not_false, if_true] at hok
      simp at hok

/-- Witness for `sql_C8_select_only_and_cap`: a non-SELECT query is
rejected; an uncapped SELECT gets ` LIMIT 50` appended; an oversized
`limit 900` is shrunk to the effective limit; a `limit 10` within the cap
is kept; and a `LIMIT` substring with no `LIMIT <digits>` match leaves the
query unchanged. -/
theorem sql_C8_select_only_and_cap_witness :
    executeSQLWithLimit 50 "show tables please".toList none 0
        = .error ⟨onlySelectMsg, some 400⟩
      ∧ "select name from users LIMIT 50".toList
          = offsetStage (trimmedUpper "select name from users".toList)
              (trimChars "select name from users".toList
                ++ (" LIMIT " ++ toString ((none : Option Nat).getD 50)).toList) 0
      ∧ "select * from t LIMIT 50".toList
          = offsetStage (trimmedUpper "select * from t limit 900".toList)
              (replaceFirstLimit ((none : Option Nat).getD 50)
                (trimChars "select * from t limit 900".toList)) 0
      ∧ "select * from t limit 10".toList
          = offsetStage (trimmedUpper "select * from t limit 10".toList)
              (trimChars "select * from t limit 10".toList) 0
      ∧ "select limitless from orders".toList
          = offsetStage (trimmedUpper "select limitless from orders".toList)
              (trimChars "select limitless from orders".toList) 0 := by
  refine ⟨?_, ?_, ?_, ?_, ?_⟩
  · exact (sql_C8_select_only_and_cap 50 "show tables please".toList none 0).1 (by decide)
  · exact ((sql_C8_select_only_and_cap 50 "select name from users".toList none 0).2.1
      ⟨"select name from users LIMIT 50".toList, true⟩ rfl (by decide)).1
  · exact ((sql_C8_select_only_and_cap 50 "select * from t limit 900".toList none 0).2.2.1
      ⟨"select * from t LIMIT 50".toList, true⟩ 900 rfl (by decide) (by decide)
      (by decide)).1
  · exact ((sql_C8_select_only_and_cap 50 "select * from t limit 10".toList none 0).2.2.2.1
      ⟨"select * from t limit 10".toList, false⟩ 10 rfl (by decide) (by decide)
      (by decide)).1
  · exact ((sql_C8_select_only_and_cap 50
      "select limitless from orders".toList none 0).2.2.2.2
      ⟨"select limitless from orders".toList, false⟩ rfl (by decide) (by decide)).1

end Erp
